import Mathlib

/-!
Verification of the config-crypto envelope-encryption package.

The development shallowly embeds the Go sources: byte strings are `List Nat`
(each element one octet), fallible functions return `Except Err`, and the
calls to the standard-library AES-256-GCM AEAD (crypto/aes + crypto/cipher)
are modelled by an executable idealised AEAD with the same interface
contract: ciphertext length is plaintext length plus the 16-byte tag, opening
with the sealing key, nonce and additional data recovers the plaintext, and
inputs shorter than the tag are rejected.  Randomness (DEK and nonce draws
from crypto/rand) is determinised by passing the drawn bytes as arguments.
Heap aliasing of Go slices, where a claim depends on it, is modelled by an
explicit store of buffers addressed by natural-number references.
-/

set_option maxRecDepth 40000

namespace ConfigCrypto

/-- Byte-mixing hash used by the idealised AEAD model: a polynomial rolling
hash reduced to one octet. -/
def polyHash (xs : List Nat) : Nat :=
  xs.foldl (fun a b => (a * 31 + b + 1) % 256) 7

/-- Keystream of `n` bytes derived from key and nonce (idealised AEAD model). -/
def keystream (key nonce : List Nat) (n : Nat) : List Nat :=
  (List.range n).map (fun i => polyHash (key ++ nonce ++ [i]))

/-- Byte-wise XOR of a plaintext with a keystream. -/
def xorMask (pt ks : List Nat) : List Nat :=
  List.zipWith (fun a b => a ^^^ b) pt ks

/-- Sixteen-byte authentication tag over key, nonce, additional data and
ciphertext (idealised AEAD model; domain separators keep fields apart). -/
def gcmTag (key nonce aad ct : List Nat) : List Nat :=
  (List.range 16).map (fun i =>
    polyHash ((i :: key) ++ (256 :: nonce) ++ (257 :: aad) ++ (258 :: ct)))

/-- Model of AES-256-GCM Seal: ciphertext of the length of the plaintext
followed by a 16-byte tag that binds key, nonce, AAD and ciphertext. -/
def gcmSeal (key nonce pt aad : List Nat) : List Nat :=
  let ct := xorMask pt (keystream key nonce pt.length)
  ct ++ gcmTag key nonce aad ct

/-- Model of AES-256-GCM Open: rejects inputs shorter than the 16-byte tag
(as the Go library does), recomputes and compares the tag, then unmasks. -/
def gcmOpen (key nonce data aad : List Nat) : Option (List Nat) :=
  if data.length < 16 then none
  else
    let n := data.length - 16
    let ct := data.take n
    let tg := data.drop n
    if tg = gcmTag key nonce aad ct then some (xorMask ct (keystream key nonce n))
    else none

/-! ## Binary format (format.go) -/

/-- Two magic bytes, the ASCII string EC. -/
def magicBytes : List Nat := [69, 67]

def formatVersion : Nat := 1

def algAES256GCM : Nat := 1

def aesKeySize : Nat := 32

def gcmNonceSize : Nat := 12

def gcmTagSize : Nat := 16

def encryptedDEKSize : Nat := aesKeySize + gcmTagSize

def minHeaderSize : Nat := 5

/-- Error taxonomy of errors.go, together with the inner-codec failures the
codec wrapper distinguishes. -/
inductive Err : Type where
  | keyNotFound
  | invalidKeySize
  | invalidFormat
  | decryptionFailed
  | invalidKeyID
  | providerDestroyed
  | innerEncode
  | innerDecode
  deriving DecidableEq

/-- The parsed header of an encrypted payload (format.go). The key ID is kept
as its UTF-8 bytes, matching what Go writes and reads. -/
structure header : Type where
  version : Nat
  algorithm : Nat
  keyID : List Nat
  dekNonce : List Nat
  encryptedDEK : List Nat
  dataNonce : List Nat
  deriving DecidableEq

/-- Total header size in bytes for the given key ID (format.go headerSize). -/
def headerSize (keyID : List Nat) : Nat :=
  minHeaderSize + keyID.length + gcmNonceSize + encryptedDEKSize + gcmNonceSize

/-- Error type of writeHeader over an abstract sink: either the key-ID length
check fails (InvalidFormat), or a sink write fails and its error is passed on
unchanged. -/
inductive WriteErr (ε : Type) : Type where
  | invalidFormat
  | sinkErr (e : ε)
  deriving DecidableEq

/-- writeHeader (format.go) over an abstract sink, mirroring the Go order of
operations: write magic; check the key-ID byte length; write version,
algorithm and key-ID length; then key ID, DEK nonce, wrapped DEK, data
nonce.  Any sink failure is returned unchanged. -/
def writeHeaderW {σ ε : Type} (write : σ → List Nat → Except ε σ) (s : σ)
    (h : header) : Except (WriteErr ε) σ :=
  match write s magicBytes with
  | .error e => .error (.sinkErr e)
  | .ok s1 =>
    if 255 < h.keyID.length then .error .invalidFormat
    else
      match write s1 [h.version, h.algorithm, h.keyID.length] with
      | .error e => .error (.sinkErr e)
      | .ok s2 =>
        match write s2 h.keyID with
        | .error e => .error (.sinkErr e)
        | .ok s3 =>
          match write s3 h.dekNonce with
          | .error e => .error (.sinkErr e)
          | .ok s4 =>
            match write s4 h.encryptedDEK with
            | .error e => .error (.sinkErr e)
            | .ok s5 =>
              match write s5 h.dataNonce with
              | .error e => .error (.sinkErr e)
              | .ok s6 => .ok s6

/-- The in-memory byte-buffer sink (bytes.Buffer): appending writes that never
fail. -/
def bufWrite (s bs : List Nat) : Except Empty (List Nat) := .ok (s ++ bs)

/-- writeHeader into a fresh in-memory buffer, as encrypt uses it. -/
def writeHeader (h : header) : Except (WriteErr Empty) (List Nat) :=
  writeHeaderW bufWrite [] h

/-- The serialised header: magic, version, algorithm, key-ID length, key ID,
DEK nonce, wrapped DEK, data nonce, in this order. -/
def headerBytes (h : header) : List Nat :=
  magicBytes ++ [h.version, h.algorithm, h.keyID.length] ++ h.keyID
    ++ h.dekNonce ++ h.encryptedDEK ++ h.dataNonce

/-- readHeader (format.go): validates minimum length, magic, version,
algorithm, and that the remaining length accommodates key ID, DEK nonce,
wrapped DEK and data nonce; then slices the fields, the three fixed-width
fields as fresh copies, and returns the rest of the input as the remainder. -/
def readHeader (data : List Nat) : Except Err (header × List Nat) :=
  if data.length < minHeaderSize then .error .invalidFormat
  else if data.take 2 ≠ magicBytes then .error .invalidFormat
  else if data.getD 2 0 ≠ formatVersion then .error .invalidFormat
  else if data.getD 3 0 ≠ algAES256GCM then .error .invalidFormat
  else if data.length < minHeaderSize + (data.getD 4 0 + gcmNonceSize + encryptedDEKSize + gcmNonceSize)
    then .error .invalidFormat
  else
    let keyIDLen := data.getD 4 0
    let keyID := (data.drop minHeaderSize).take keyIDLen
    let rest0 := data.drop (minHeaderSize + keyIDLen)
    let dekNonce := rest0.take gcmNonceSize
    let rest1 := rest0.drop gcmNonceSize
    let encryptedDEK := rest1.take encryptedDEKSize
    let rest2 := rest1.drop encryptedDEKSize
    let dataNonce := rest2.take gcmNonceSize
    let remainder := rest2.drop gcmNonceSize
    .ok (⟨data.getD 2 0, data.getD 3 0, keyID, dekNonce, encryptedDEK, dataNonce⟩, remainder)

/-! ## Envelope primitives (encrypt.go, decrypt) -/

/-- A named encryption key (key_provider.go): ID kept as its UTF-8 bytes,
Bytes as the raw key material. -/
structure Key : Type where
  ID : List Nat
  Bytes : List Nat
  deriving DecidableEq

/-- encrypt (encrypt.go): validates the KEK size, wraps the DEK under the KEK
with the key ID as AAD, encrypts the plaintext under the DEK with the key ID
as AAD, and assembles header plus ciphertext.  The random draws (DEK, DEK
nonce, data nonce) are passed in as arguments to determinise crypto/rand. -/
def encrypt (plaintext : List Nat) (kek : Key) (dek dekNonce dataNonce : List Nat) :
    Except Err (List Nat) :=
  if kek.Bytes.length ≠ aesKeySize then .error .invalidKeySize
  else
    let encryptedDEK := gcmSeal kek.Bytes dekNonce dek kek.ID
    let ciphertext := gcmSeal dek dataNonce plaintext kek.ID
    let h : header := ⟨formatVersion, algAES256GCM, kek.ID, dekNonce, encryptedDEK, dataNonce⟩
    match writeHeader h with
    | .error _ => .error .invalidFormat
    | .ok hdr => .ok (hdr ++ ciphertext)

/-- decrypt (src/encrypt.go lines 303 to 351): parses the header, looks up the
KEK by the key ID from the header, validates its size, unwraps the DEK with
the header key ID as AAD, then opens the data ciphertext with the same AAD.
The key provider is passed as its KeyByID lookup function.  Note there is no
explicit minimum-length check on the ciphertext portion: a short ciphertext
is rejected inside the AEAD Open and surfaces as decryptionFailed. -/
def decrypt (data : List Nat) (keyByID : List Nat → Except Err Key) :
    Except Err (List Nat) :=
  match readHeader data with
  | .error e => .error e
  | .ok (h, ciphertext) =>
    match keyByID h.keyID with
    | .error e => .error e
    | .ok kek =>
      if kek.Bytes.length ≠ aesKeySize then .error .invalidKeySize
      else
        match gcmOpen kek.Bytes h.dekNonce h.encryptedDEK h.keyID with
        | none => .error .decryptionFailed
        | some dek =>
          match gcmOpen dek h.dataNonce ciphertext h.keyID with
          | none => .error .decryptionFailed
          | some pt => .ok pt

/-! ## Codec wrapper (crypto.go) -/

/-- The pluggable inner serialiser the codec delegates to (codec.Codec). -/
structure InnerCodec (V : Type) : Type where
  encode : V → Option (List Nat)
  decode : List Nat → Option V

/-- A key provider seen through its two operations, as the codec uses it. -/
structure ProviderFn : Type where
  CurrentKey : Except Err Key
  KeyByID : List Nat → Except Err Key

/-- Codec.Encode (crypto.go): inner encode, fetch the current key, encrypt.
The random draws are passed through to encrypt. -/
def codecEncode {V : Type} (inner : InnerCodec V) (p : ProviderFn) (v : V)
    (dek dekNonce dataNonce : List Nat) : Except Err (List Nat) :=
  match inner.encode v with
  | none => .error .innerEncode
  | some plaintext =>
    match p.CurrentKey with
    | .error e => .error e
    | .ok key => encrypt plaintext key dek dekNonce dataNonce

/-- Codec.Decode (crypto.go): decrypt, then inner decode. -/
def codecDecode {V : Type} (inner : InnerCodec V) (p : ProviderFn) (data : List Nat) :
    Except Err V :=
  match decrypt data p.KeyByID with
  | .error e => .error e
  | .ok plaintext =>
    match inner.decode plaintext with
    | none => .error .innerDecode
    | some v => .ok v

/-! ## Store of byte buffers

Go slices alias a backing array; the copy-on-construction, copy-on-parse and
zeroisation claims are about that aliasing.  A `Mem` is a store of byte
buffers addressed by natural-number references; `alloc` returns a fresh
reference (the Go make/append-to-nil allocations), `write` overwrites a
buffer in place (mutation through any slice of it). -/

structure Mem : Type where
  size : Nat
  buf : Nat → List Nat

def Mem.read (m : Mem) (r : Nat) : List Nat := m.buf r

def Mem.write (m : Mem) (r : Nat) (bs : List Nat) : Mem :=
  ⟨m.size, fun x => if x = r then bs else m.buf x⟩

def Mem.alloc (m : Mem) (bs : List Nat) : Mem × Nat :=
  (⟨m.size + 1, fun x => if x = m.size then bs else m.buf x⟩, m.size)

def Mem.empty : Mem := ⟨0, fun _ => []⟩

/-- readHeader including its allocation behaviour: the three fixed-width
header fields are freshly allocated copies (the append-to-nil copies in
format.go), while the remainder is a slice of the input buffer, returned as
the pair of the input reference and the offset where the ciphertext starts. -/
structure headerRefs : Type where
  version : Nat
  algorithm : Nat
  keyID : List Nat
  dekNonceRef : Nat
  encryptedDEKRef : Nat
  dataNonceRef : Nat
  deriving DecidableEq

/-- readHeader at the store level: parse the buffer behind `r`, allocate
fresh copies of the DEK nonce, wrapped DEK and data nonce, and return the
remainder as the input reference with its starting offset. -/
def readHeaderM (m : Mem) (r : Nat) : Except Err (headerRefs × (Nat × Nat) × Mem) :=
  match readHeader (m.read r) with
  | .error e => .error e
  | .ok (h, _) =>
    let a1 := m.alloc h.dekNonce
    let a2 := a1.1.alloc h.encryptedDEK
    let a3 := a2.1.alloc h.dataNonce
    .ok (⟨h.version, h.algorithm, h.keyID, a1.2, a2.2, a3.2⟩,
      (r, headerSize h.keyID), a3.1)

/-! ## StaticKeyProvider (src/encrypt.go lines 84 to 168)

The provider owns its key buffers, so a stored key is an ID together with a
reference into the store.  CurrentKey and KeyByID return the stored key value
itself, sharing its buffer reference, exactly as the Go methods return the
stored Key struct without copying its Bytes slice.  The destroyed flag and
the Destroy operation are absent from the sources under src, although the
tests of static_provider_test.go and the package documentation exercise
them; they are modelled from the spec as documented below. -/

/-- A stored key: its ID and the reference of its byte buffer. -/
structure KeyRef : Type where
  ID : List Nat
  ref : Nat
  deriving DecidableEq

/-- Lookup in the ID-to-key mapping (Go map read). -/
def lookupKey : List (List Nat × KeyRef) → List Nat → Option KeyRef
  | [], _ => none
  | (a, k) :: rest, id => if a = id then some k else lookupKey rest id

/-- Assignment in the ID-to-key mapping (Go map write): replaces the entry
with the same ID when present, appends otherwise. -/
def mapSet : List (List Nat × KeyRef) → List Nat → KeyRef → List (List Nat × KeyRef)
  | [], id, k => [(id, k)]
  | (a, k0) :: rest, id, k =>
    if a = id then (id, k) :: rest else (a, k0) :: mapSet rest id k

/-- The in-memory key provider: the current key, the ID-to-key mapping (in
insertion order), and the destroyed flag (modelled from the spec). -/
structure StaticKeyProvider : Type where
  current : KeyRef
  keys : List (List Nat × KeyRef)
  destroyed : Bool
  deriving DecidableEq

/-- WithOldKey (encrypt.go): validates size and ID of the old key, copies its
bytes into a fresh buffer and assigns it into the mapping.  Option errors
are deferred: the fold in the constructor short-circuits on the first error,
matching the early return on a previously recorded error in Go. -/
def withOldKeyStep (m : Mem) (p : StaticKeyProvider) (src : Nat) (id : List Nat) :
    Except Err (StaticKeyProvider × Mem) :=
  if (m.read src).length ≠ aesKeySize then .error .invalidKeySize
  else if id = [] then .error .invalidKeyID
  else
    let a := m.alloc (m.read src)
    .ok ({ p with keys := mapSet p.keys id ⟨id, a.2⟩ }, a.1)

/-- One step of the option fold of NewStaticKeyProvider. -/
def applyOpt (acc : Except Err (StaticKeyProvider × Mem)) (opt : Nat × List Nat) :
    Except Err (StaticKeyProvider × Mem) :=
  match acc with
  | .error e => .error e
  | .ok (p, mm) => withOldKeyStep mm p opt.1 opt.2

/-- NewStaticKeyProvider (encrypt.go): validates the current key, copies its
bytes into a fresh buffer, inserts it into the mapping under its ID, then
applies the options in order with deferred validation errors.  Key-byte
sources are passed as references into the store so that caller-side
mutation after construction is expressible. -/
def NewStaticKeyProvider (m : Mem) (src : Nat) (id : List Nat)
    (opts : List (Nat × List Nat)) : Except Err (StaticKeyProvider × Mem) :=
  if (m.read src).length ≠ aesKeySize then .error .invalidKeySize
  else if id = [] then .error .invalidKeyID
  else
    let a := m.alloc (m.read src)
    let current : KeyRef := ⟨id, a.2⟩
    opts.foldl applyOpt (.ok (⟨current, [(id, current)], false⟩, a.1))

/-- CurrentKey (encrypt.go): returns the stored current key itself, with no
copy of its bytes.  The destroyed check is modelled from the spec, since
static_provider.go with the Destroy lifecycle is absent from src. -/
def StaticKeyProvider.CurrentKey (p : StaticKeyProvider) : Except Err KeyRef :=
  if p.destroyed then .error .providerDestroyed else .ok p.current

/-- KeyByID (encrypt.go): mapping lookup, again returning the stored key
itself.  The destroyed check is modelled from the spec. -/
def StaticKeyProvider.KeyByID (p : StaticKeyProvider) (id : List Nat) :
    Except Err KeyRef :=
  if p.destroyed then .error .providerDestroyed
  else
    match lookupKey p.keys id with
    | none => .error .keyNotFound
    | some k => .ok k

/-- A buffer of `n` zero bytes. -/
def zeros (n : Nat) : List Nat := List.replicate n 0

/-- Overwrite the buffer behind `r` with zero bytes of its current length. -/
def Mem.zeroRef (m : Mem) (r : Nat) : Mem := m.write r (zeros (m.read r).length)

/-- Zero a list of buffers in order. -/
def zeroRefs (m : Mem) (rs : List Nat) : Mem := rs.foldl Mem.zeroRef m

/-- Modelled from the spec: Destroy of static_provider.go is missing from
src (only static_provider_test.go and the package documentation reference
it).  Following the spec, it overwrites the current key buffer and every
stored key buffer with zero, clears the mapping and sets the destroyed
flag; a second call is a no-op. -/
def StaticKeyProvider.Destroy (p : StaticKeyProvider) (m : Mem) :
    StaticKeyProvider × Mem :=
  if p.destroyed then (p, m)
  else
    (⟨p.current, [], true⟩,
      zeroRefs m (p.current.ref :: p.keys.map (fun kv => kv.2.ref)))

/-! ## Concrete values used by the closed witness and counterexample
theorems. -/

/-- The 32-byte key of makeKey(32) in the tests: bytes 0 to 31. -/
def wBytes : List Nat := List.range 32

/-- A second 32-byte key (bytes 100 to 131), as in the rotation tests. -/
def wBytes2 : List Nat := (List.range 32).map (fun i => i + 100)

/-- A concrete DEK. -/
def wDek : List Nat := (List.range 32).map (fun i => (i * 7 + 3) % 256)

/-- A concrete DEK nonce. -/
def wNonce1 : List Nat := List.replicate 12 1

/-- A concrete data nonce. -/
def wNonce2 : List Nat := List.replicate 12 2

/-- The UTF-8 bytes of the key ID test. -/
def wIDA : List Nat := [116, 101, 115, 116]

/-- The UTF-8 bytes of the key ID best, same length as wIDA. -/
def wIDB : List Nat := [98, 101, 115, 116]

/-- The KEK used by the concrete witnesses. -/
def wKey : Key := ⟨wIDA, wBytes⟩

/-- A provider lookup holding exactly wKey under wIDA. -/
def wLookup : List Nat → Except Err Key :=
  fun id => if id = wIDA then .ok wKey else .error .keyNotFound

/-- A provider lookup holding the bytes of wKey under the substituted ID. -/
def wLookupB : List Nat → Except Err Key :=
  fun id => if id = wIDB then .ok ⟨wIDB, wBytes⟩ else .error .keyNotFound

/-- The identity inner codec on byte lists. -/
def wInner : InnerCodec (List Nat) := ⟨fun v => some v, fun bs => some bs⟩

/-- The provider of the concrete witnesses as the codec sees it. -/
def wProv : ProviderFn := ⟨.ok wKey, wLookup⟩

/-- The plaintext hello. -/
def wPlain : List Nat := [104, 101, 108, 108, 111]

/-- A sink whose writes always fail with the error 7. -/
def wFailWrite : Unit → List Nat → Except Nat Unit := fun _ _ => .error 7

/-- A header with an empty key ID and zeroed fixed-width fields. -/
def wHeader0 : header := ⟨1, 1, [], zeros 12, zeros 48, zeros 12⟩

/-- A header with a 255-byte key ID. -/
def wHeader255 : header := ⟨1, 1, List.replicate 255 120, zeros 12, zeros 48, zeros 12⟩

/-- A header with a 256-byte key ID. -/
def wHeader256 : header := ⟨1, 1, List.replicate 256 120, zeros 12, zeros 48, zeros 12⟩

/-- A well-formed envelope with empty key ID and a one-byte ciphertext tail. -/
def wData0 : List Nat := headerBytes wHeader0 ++ [9]

/-- A store holding wData0 in buffer 0. -/
def wMem9 : Mem := (Mem.empty.alloc wData0).1

/-- The store after readHeaderM allocated the three field copies. -/
def wMem9f : Mem := (((wMem9.alloc (zeros 12)).1.alloc (zeros 48)).1.alloc (zeros 12)).1

/-- The header references readHeaderM returns on wMem9. -/
def wRefs9 : headerRefs := ⟨1, 1, [], 1, 2, 3⟩

/-- A store holding the nonzero key bytes of the C3 scenario in buffer 0. -/
def c3src : List Nat := (List.range 32).map (fun i => i + 1)

/-- The C3 store: one buffer holding c3src. -/
def c3m0 : Mem := (Mem.empty.alloc c3src).1

/-- The store of the amended-claim witness: buffer 0 holds the current key
bytes, buffer 1 holds the old key bytes. -/
def c3m2 : Mem := ((Mem.empty.alloc c3src).1.alloc wBytes2).1

/-- The provider NewStaticKeyProvider builds from c3m2 with one old key:
current key copied into buffer 2, old key copied into buffer 3. -/
def c3p2 : StaticKeyProvider :=
  ⟨⟨[107], 2⟩, [([107], ⟨[107], 2⟩), ([108], ⟨[108], 3⟩)], false⟩

/-- The store after that construction. -/
def c3mC2 : Mem :=
  ((c3m2.alloc (c3m2.read 0)).1.alloc ((c3m2.alloc (c3m2.read 0)).1.read 1)).1

/-- The C2 witness provider: one key whose buffer is reference 0. -/
def c2p : StaticKeyProvider := ⟨⟨[107], 0⟩, [([107], ⟨[107], 0⟩)], false⟩

/-- The C2 witness store: buffer 0 holds the key bytes. -/
def c2m : Mem := (Mem.empty.alloc wBytes).1

/-- The C10 store: buffer 0 holds wBytes, buffer 1 holds wBytes2. -/
def c10m : Mem := ((Mem.empty.alloc wBytes).1.alloc wBytes2).1

deriving instance DecidableEq for Except

/-! ## Laws of the AEAD model and of the store -/

theorem xorMask_length (pt ks : List Nat) : (xorMask pt ks).length = min pt.length ks.length := by
  simp [xorMask]

theorem keystream_length (key nonce : List Nat) (n : Nat) : (keystream key nonce n).length = n := by
  simp [keystream]

theorem xorMask_cancel : ∀ (pt ks : List Nat), pt.length ≤ ks.length →
    xorMask (xorMask pt ks) ks = pt
  | [], _, _ => rfl
  | a :: pt, b :: ks, h => by
      have h2 : pt.length ≤ ks.length := by simpa using h
      have hx : (a ^^^ b) ^^^ b = a := by
        rw [Nat.xor_assoc, Nat.xor_self, Nat.xor_zero]
      simp [xorMask] at *
      exact ⟨hx, xorMask_cancel pt ks h2⟩
  | a :: pt, [], h => by simp at h

theorem gcmSeal_length (key nonce pt aad : List Nat) :
    (gcmSeal key nonce pt aad).length = pt.length + 16 := by
  simp [gcmSeal, gcmTag, xorMask_length, keystream_length]

theorem gcmOpen_gcmSeal (key nonce pt aad : List Nat) :
    gcmOpen key nonce (gcmSeal key nonce pt aad) aad = some pt := by
  have hct : (xorMask pt (keystream key nonce pt.length)).length = pt.length := by
    simp [xorMask_length, keystream_length]
  have hlen : (gcmSeal key nonce pt aad).length = pt.length + 16 := gcmSeal_length ..
  rw [gcmOpen, if_neg (by omega)]
  have hn : (gcmSeal key nonce pt aad).length - 16 = pt.length := by omega
  have htake : (gcmSeal key nonce pt aad).take pt.length
      = xorMask pt (keystream key nonce pt.length) := by
    rw [gcmSeal]
    exact List.take_left' hct
  have hdrop : (gcmSeal key nonce pt aad).drop pt.length
      = gcmTag key nonce aad (xorMask pt (keystream key nonce pt.length)) := by
    rw [gcmSeal]
    exact List.drop_left' hct
  simp only [hn, htake, hdrop, if_pos rfl]
  rw [xorMask_cancel pt _ (by rw [keystream_length])]
  simp

theorem Mem.read_write_same (m : Mem) (r : Nat) (bs : List Nat) :
    (m.write r bs).read r = bs := by
  simp [Mem.read, Mem.write]

theorem Mem.read_write_ne (m : Mem) (r x : Nat) (bs : List Nat) (h : x ≠ r) :
    (m.write r bs).read x = m.read x := by
  simp [Mem.read, Mem.write, h]

theorem Mem.read_alloc_same (m : Mem) (bs : List Nat) :
    (m.alloc bs).1.read (m.alloc bs).2 = bs := by
  simp [Mem.read, Mem.alloc]

theorem Mem.read_alloc_ne (m : Mem) (bs : List Nat) (x : Nat) (h : x ≠ m.size) :
    (m.alloc bs).1.read x = m.read x := by
  simp [Mem.read, Mem.alloc, h]

theorem Mem.alloc_snd (m : Mem) (bs : List Nat) : (m.alloc bs).2 = m.size := rfl

theorem Mem.zeroRef_read (m : Mem) (a r : Nat) :
    (m.zeroRef a).read r = if r = a then zeros (m.read r).length else m.read r := by
  by_cases h : r = a
  · subst h
    simp [Mem.zeroRef, Mem.read_write_same]
  · simp [Mem.zeroRef, Mem.read_write_ne _ _ _ _ h, h]

theorem zeroRefs_read : ∀ (rs : List Nat) (m : Mem) (r : Nat),
    (zeroRefs m rs).read r = if r ∈ rs then zeros (m.read r).length else m.read r
  | [], m, r => by simp [zeroRefs]
  | a :: rs, m, r => by
      have ih := zeroRefs_read rs (m.zeroRef a) r
      have hstep : zeroRefs m (a :: rs) = zeroRefs (m.zeroRef a) rs := rfl
      rw [hstep, ih, Mem.zeroRef_read]
      by_cases hra : r = a
      · subst hra
        by_cases hr : r ∈ rs <;> simp [hr, zeros]
      · by_cases hr : r ∈ rs <;> simp [hr, hra]

/-! ## Laws of the format layer -/

theorem writeHeader_ok (h : header) (hid : h.keyID.length ≤ 255) :
    writeHeader h = .ok (headerBytes h) := by
  rw [writeHeader, writeHeaderW]
  simp only [bufWrite, if_neg (by omega : ¬ 255 < h.keyID.length)]
  simp [headerBytes, List.append_assoc]

theorem readHeader_headerBytes (h : header) (ct : List Nat)
    (hv : h.version = formatVersion) (ha : h.algorithm = algAES256GCM)
    (hn1 : h.dekNonce.length = gcmNonceSize)
    (hed : h.encryptedDEK.length = encryptedDEKSize)
    (hn2 : h.dataNonce.length = gcmNonceSize) :
    readHeader (headerBytes h ++ ct) = .ok (h, ct) := by
  obtain ⟨ver, alg, kid, dn, ed, dan⟩ := h
  simp only at hv ha hn1 hed hn2
  subst hv ha
  have hshape : headerBytes ⟨formatVersion, algAES256GCM, kid, dn, ed, dan⟩ ++ ct
      = 69 :: 67 :: formatVersion :: algAES256GCM :: kid.length ::
        (kid ++ (dn ++ (ed ++ (dan ++ ct)))) := by
    simp [headerBytes, magicBytes, List.append_assoc]
  rw [hshape, readHeader]
  have hlen : (69 :: 67 :: formatVersion :: algAES256GCM :: kid.length ::
      (kid ++ (dn ++ (ed ++ (dan ++ ct))))).length
      = 5 + (kid.length + (gcmNonceSize + (encryptedDEKSize + (gcmNonceSize + ct.length)))) := by
    simp [hn1, hed, hn2]
    omega
  rw [if_neg (by rw [hlen]; simp [minHeaderSize])]
  rw [if_neg (by simp [magicBytes])]
  rw [if_neg (by simp [List.getD_cons_succ, List.getD_cons_zero])]
  rw [if_neg (by simp [List.getD_cons_succ, List.getD_cons_zero])]
  have hgetD4 : (69 :: 67 :: formatVersion :: algAES256GCM :: kid.length ::
      (kid ++ (dn ++ (ed ++ (dan ++ ct))))).getD 4 0 = kid.length := by
    simp [List.getD_cons_succ, List.getD_cons_zero]
  rw [if_neg (by rw [hlen, hgetD4]; simp [minHeaderSize]; omega)]
  simp only [hgetD4]
  have hdrop5 : (69 :: 67 :: formatVersion :: algAES256GCM :: kid.length ::
      (kid ++ (dn ++ (ed ++ (dan ++ ct))))).drop minHeaderSize
      = kid ++ (dn ++ (ed ++ (dan ++ ct))) := by
    simp [minHeaderSize]
  have hdropKid : (69 :: 67 :: formatVersion :: algAES256GCM :: kid.length ::
      (kid ++ (dn ++ (ed ++ (dan ++ ct))))).drop (minHeaderSize + kid.length)
      = dn ++ (ed ++ (dan ++ ct)) := by
    rw [← List.drop_drop, hdrop5]
    exact List.drop_left' rfl
  simp only [hdrop5, hdropKid]
  rw [List.take_left' rfl]
  rw [List.take_left' hn1, List.drop_left' hn1]
  rw [List.take_left' hed, List.drop_left' hed]
  rw [List.take_left' hn2, List.drop_left' hn2]
  simp [List.getD_cons_succ, List.getD_cons_zero]

theorem encrypt_ok (plaintext : List Nat) (kek : Key) (dek dekNonce dataNonce : List Nat)
    (hklen : kek.Bytes.length = aesKeySize) (hid : kek.ID.length ≤ 255) :
    encrypt plaintext kek dek dekNonce dataNonce
      = .ok (headerBytes ⟨formatVersion, algAES256GCM, kek.ID, dekNonce,
          gcmSeal kek.Bytes dekNonce dek kek.ID, dataNonce⟩
        ++ gcmSeal dek dataNonce plaintext kek.ID) := by
  rw [encrypt, if_neg (by omega)]
  have hw := writeHeader_ok ⟨formatVersion, algAES256GCM, kek.ID, dekNonce,
      gcmSeal kek.Bytes dekNonce dek kek.ID, dataNonce⟩ (by simpa using hid)
  simp only [hw]

theorem decrypt_encrypt (plaintext : List Nat) (kek : Key)
    (dek dekNonce dataNonce : List Nat) (keyByID : List Nat → Except Err Key)
    (hlook : keyByID kek.ID = .ok kek)
    (hklen : kek.Bytes.length = aesKeySize) (hid : kek.ID.length ≤ 255)
    (hdek : dek.length = aesKeySize)
    (hn1 : dekNonce.length = gcmNonceSize) (hn2 : dataNonce.length = gcmNonceSize) :
    ∃ env, encrypt plaintext kek dek dekNonce dataNonce = .ok env ∧
      decrypt env keyByID = .ok plaintext := by
  refine ⟨_, encrypt_ok plaintext kek dek dekNonce dataNonce hklen hid, ?_⟩
  rw [decrypt, readHeader_headerBytes _ _ rfl rfl hn1
    (by rw [gcmSeal_length, hdek]; rfl) hn2]
  simp only [hlook]
  rw [if_neg (by omega)]
  simp only [gcmOpen_gcmSeal]

/-! ## The claims -/

/-- C1: Round-trip.  For every value the inner codec encodes successfully
(and decodes back), and every provider whose current key is a valid 32-byte
key reachable by its ID, Decode of Encode succeeds and returns the value;
the core is that decrypt of encrypt returns the plaintext when the provider
maps the KEK ID to the KEK bytes.  The random draws are quantified over all
well-sized values. -/
theorem C1_codec_round_trip {V : Type} (inner : InnerCodec V) (p : ProviderFn) (v : V)
    (pt : List Nat) (k : Key) (dek n1 n2 : List Nat)
    (henc : inner.encode v = some pt) (hdec : inner.decode pt = some v)
    (hcur : p.CurrentKey = .ok k) (hlook : p.KeyByID k.ID = .ok k)
    (hklen : k.Bytes.length = aesKeySize) (hid : k.ID.length ≤ 255)
    (hdek : dek.length = aesKeySize) (hn1 : n1.length = gcmNonceSize)
    (hn2 : n2.length = gcmNonceSize) :
    ∃ env, codecEncode inner p v dek n1 n2 = .ok env ∧
      codecDecode inner p env = .ok v := by
  obtain ⟨env, he, hd⟩ := decrypt_encrypt pt k dek n1 n2 p.KeyByID hlook hklen hid hdek hn1 hn2
  refine ⟨env, ?_, ?_⟩
  · rw [codecEncode]
    simp only [henc, hcur, he]
  · rw [codecDecode]
    simp only [hd, hdec]

theorem C1_codec_round_trip_witness :
    ∃ env, codecEncode wInner wProv [1, 2, 3] wDek wNonce1 wNonce2 = .ok env ∧
      codecDecode wInner wProv env = .ok [1, 2, 3] :=
  C1_codec_round_trip wInner wProv [1, 2, 3] [1, 2, 3] wKey wDek wNonce1 wNonce2
    rfl rfl rfl (by decide) (by decide) (by decide) (by decide) (by decide) (by decide)

/-- C6: Envelope size.  For every plaintext and KEK with 32-byte material and
key ID at most 255 bytes, a successful encrypt returns exactly
93 + byte length of the key ID + plaintext length bytes, which equals
headerSize of the key ID plus plaintext length plus the 16-byte tag. -/
theorem C6_envelope_size (pt : List Nat) (k : Key) (dek n1 n2 : List Nat)
    (hklen : k.Bytes.length = aesKeySize) (hid : k.ID.length ≤ 255)
    (hdek : dek.length = aesKeySize) (hn1 : n1.length = gcmNonceSize)
    (hn2 : n2.length = gcmNonceSize) :
    ∃ env, encrypt pt k dek n1 n2 = .ok env ∧
      env.length = 93 + k.ID.length + pt.length ∧
      env.length = headerSize k.ID + pt.length + gcmTagSize := by
  refine ⟨_, encrypt_ok pt k dek n1 n2 hklen hid, ?_, ?_⟩ <;>
  · simp [headerBytes, magicBytes, gcmSeal_length, headerSize, hn1, hn2, hdek,
      aesKeySize, gcmNonceSize, encryptedDEKSize, gcmTagSize, minHeaderSize]
    omega

theorem C6_envelope_size_witness :
    ∃ env, encrypt wPlain wKey wDek wNonce1 wNonce2 = .ok env ∧
      env.length = 93 + wKey.ID.length + wPlain.length ∧
      env.length = headerSize wKey.ID + wPlain.length + gcmTagSize :=
  C6_envelope_size wPlain wKey wDek wNonce1 wNonce2
    (by decide) (by decide) (by decide) (by decide) (by decide)

/-- C5: Key-ID AAD binding.  Take an envelope produced under the key with ID
A and bytes K, replace its key-ID field with a different ID B (adjusting the
length byte) and decrypt against a provider that maps B to the same bytes K.
Because the key ID is the AAD of the DEK-wrapping layer, the AEAD rejects the
wrapped DEK under the altered AAD (hypothesis hreject, which holds for the
AEAD except with negligible probability), and decrypt fails with
decryptionFailed. -/
theorem C5_keyID_aad_binding (ptx A B K dek n1 n2 : List Nat)
    (lookup : List Nat → Except Err Key)
    (hKB : lookup B = .ok ⟨B, K⟩) (hK : K.length = aesKeySize)
    (hdek : dek.length = aesKeySize) (hn1 : n1.length = gcmNonceSize)
    (hn2 : n2.length = gcmNonceSize) (hA : A.length ≤ 255) (hB : B.length ≤ 255)
    (hAB : A ≠ B)
    (hreject : gcmOpen K n1 (gcmSeal K n1 dek A) B = none) :
    ∃ env, encrypt ptx ⟨A, K⟩ dek n1 n2 = .ok env ∧
      decrypt (magicBytes ++ [formatVersion, algAES256GCM, B.length] ++ B
        ++ env.drop (minHeaderSize + A.length)) lookup
      = .error Err.decryptionFailed := by
  refine ⟨_, encrypt_ok ptx ⟨A, K⟩ dek n1 n2 hK hA, ?_⟩
  have hpre : (headerBytes ⟨formatVersion, algAES256GCM, A, n1,
        gcmSeal K n1 dek A, n2⟩ ++ gcmSeal dek n2 ptx A)
      = (magicBytes ++ [formatVersion, algAES256GCM, A.length] ++ A)
        ++ (n1 ++ (gcmSeal K n1 dek A ++ (n2 ++ gcmSeal dek n2 ptx A))) := by
    simp [headerBytes, List.append_assoc]
  have hplen : (magicBytes ++ [formatVersion, algAES256GCM, A.length] ++ A).length
      = minHeaderSize + A.length := by
    simp [magicBytes, minHeaderSize]
    omega
  have hdropA : (headerBytes ⟨formatVersion, algAES256GCM, A, n1,
        gcmSeal K n1 dek A, n2⟩ ++ gcmSeal dek n2 ptx A).drop (minHeaderSize + A.length)
      = n1 ++ (gcmSeal K n1 dek A ++ (n2 ++ gcmSeal dek n2 ptx A)) := by
    rw [hpre]
    exact List.drop_left' hplen
  rw [hdropA]
  have hshape : magicBytes ++ [formatVersion, algAES256GCM, B.length] ++ B
        ++ (n1 ++ (gcmSeal K n1 dek A ++ (n2 ++ gcmSeal dek n2 ptx A)))
      = headerBytes ⟨formatVersion, algAES256GCM, B, n1,
          gcmSeal K n1 dek A, n2⟩ ++ gcmSeal dek n2 ptx A := by
    simp [headerBytes, List.append_assoc]
  rw [hshape, decrypt, readHeader_headerBytes _ _ rfl rfl hn1
    (by rw [gcmSeal_length, hdek]; rfl) hn2]
  simp only [hKB]
  rw [if_neg (by omega)]
  simp only [hreject]

theorem C5_keyID_aad_binding_witness :
    ∃ env, encrypt [1, 2, 3] ⟨wIDA, wBytes⟩ wDek wNonce1 wNonce2 = .ok env ∧
      decrypt (magicBytes ++ [formatVersion, algAES256GCM, wIDB.length] ++ wIDB
        ++ env.drop (minHeaderSize + wIDA.length)) wLookupB
      = .error Err.decryptionFailed :=
  C5_keyID_aad_binding [1, 2, 3] wIDA wIDB wBytes wDek wNonce1 wNonce2 wLookupB
    (by decide) (by decide) (by decide) (by decide) (by decide) (by decide)
    (by decide) (by decide) (by decide)

/-- C4: evidence of the divergence.  The claim (with the spec and the tests
TestDecryptCiphertextTooShort and TestDecryptCiphertextPartialTag of
crypto_test.go) requires invalidFormat when the header parses but the
ciphertext portion is shorter than the 16-byte tag.  The decrypt of
src/encrypt.go has no such pre-check: on a valid envelope truncated to the
bare header, and on one truncated to header plus 8 bytes, it reaches the
data-layer AEAD Open, which rejects the short input, and decrypt returns
decryptionFailed instead. -/
theorem C4_short_ciphertext_divergence :
    ((encrypt wPlain wKey wDek wNonce1 wNonce2).toOption.map
      (fun env => (decrypt (env.take (headerSize wIDA)) wLookup,
                   decrypt (env.take (headerSize wIDA + 8)) wLookup))
      = some (.error Err.decryptionFailed, .error Err.decryptionFailed)) ∧
    Err.decryptionFailed ≠ Err.invalidFormat := by
  constructor
  · decide
  · decide

/-- C7: readHeader validation.  readHeader fails, always with invalidFormat,
exactly when the buffer is shorter than 5 bytes, the first two bytes are not
the magic EC, byte 2 is not the version 1, byte 3 is not the algorithm 1, or
the buffer is shorter than 5 + key-ID length + 72; otherwise it succeeds and
the remainder is the suffix of the buffer starting at offset
77 + key-ID length. -/
theorem C7_readHeader_validation (data : List Nat) :
    (readHeader data = .error Err.invalidFormat ↔
      (data.length < 5 ∨ data.take 2 ≠ magicBytes ∨ data.getD 2 0 ≠ 1 ∨
       data.getD 3 0 ≠ 1 ∨ data.length < 5 + (data.getD 4 0 + 72))) ∧
    (¬ (data.length < 5 ∨ data.take 2 ≠ magicBytes ∨ data.getD 2 0 ≠ 1 ∨
        data.getD 3 0 ≠ 1 ∨ data.length < 5 + (data.getD 4 0 + 72)) →
      ∃ h, readHeader data = .ok (h, data.drop (77 + data.getD 4 0))) := by
  rw [readHeader]
  split_ifs with h1 h2 h3 h4 h5
  · have hc : data.length < 5 ∨ data.take 2 ≠ magicBytes ∨ data.getD 2 0 ≠ 1 ∨
        data.getD 3 0 ≠ 1 ∨ data.length < 5 + (data.getD 4 0 + 72) :=
      Or.inl (by simpa [minHeaderSize] using h1)
    exact ⟨iff_of_true rfl hc, fun hn => absurd hc hn⟩
  · have hc : data.length < 5 ∨ data.take 2 ≠ magicBytes ∨ data.getD 2 0 ≠ 1 ∨
        data.getD 3 0 ≠ 1 ∨ data.length < 5 + (data.getD 4 0 + 72) :=
      Or.inr (Or.inl h2)
    exact ⟨iff_of_true rfl hc, fun hn => absurd hc hn⟩
  · have hc : data.length < 5 ∨ data.take 2 ≠ magicBytes ∨ data.getD 2 0 ≠ 1 ∨
        data.getD 3 0 ≠ 1 ∨ data.length < 5 + (data.getD 4 0 + 72) :=
      Or.inr (Or.inr (Or.inl (by simpa [formatVersion] using h3)))
    exact ⟨iff_of_true rfl hc, fun hn => absurd hc hn⟩
  · have hc : data.length < 5 ∨ data.take 2 ≠ magicBytes ∨ data.getD 2 0 ≠ 1 ∨
        data.getD 3 0 ≠ 1 ∨ data.length < 5 + (data.getD 4 0 + 72) :=
      Or.inr (Or.inr (Or.inr (Or.inl (by simpa [algAES256GCM] using h4))))
    exact ⟨iff_of_true rfl hc, fun hn => absurd hc hn⟩
  · have h5n : data.length < 5 + (data.getD 4 0 + 72) := by
      simp only [minHeaderSize, gcmNonceSize, encryptedDEKSize, aesKeySize, gcmTagSize] at h5
      omega
    have hc : data.length < 5 ∨ data.take 2 ≠ magicBytes ∨ data.getD 2 0 ≠ 1 ∨
        data.getD 3 0 ≠ 1 ∨ data.length < 5 + (data.getD 4 0 + 72) :=
      Or.inr (Or.inr (Or.inr (Or.inr h5n)))
    exact ⟨iff_of_true rfl hc, fun hn => absurd hc hn⟩
  · have hcond : ¬ (data.length < 5 ∨ data.take 2 ≠ magicBytes ∨ data.getD 2 0 ≠ 1 ∨
        data.getD 3 0 ≠ 1 ∨ data.length < 5 + (data.getD 4 0 + 72)) := by
      intro hc
      rcases hc with hc | hc | hc | hc | hc
      · exact h1 (by simpa [minHeaderSize] using hc)
      · exact h2 hc
      · exact h3 (by simpa [formatVersion] using hc)
      · exact h4 (by simpa [algAES256GCM] using hc)
      · apply h5
        simp only [minHeaderSize, gcmNonceSize, encryptedDEKSize, aesKeySize, gcmTagSize]
        omega
    refine ⟨iff_of_false (by simp) hcond, fun _ => ?_⟩
    refine ⟨⟨data.getD 2 0, data.getD 3 0,
      (data.drop minHeaderSize).take (data.getD 4 0),
      (data.drop (minHeaderSize + data.getD 4 0)).take gcmNonceSize,
      ((data.drop (minHeaderSize + data.getD 4 0)).drop gcmNonceSize).take encryptedDEKSize,
      (((data.drop (minHeaderSize + data.getD 4 0)).drop gcmNonceSize).drop
        encryptedDEKSize).take gcmNonceSize⟩, ?_⟩
    simp only [List.drop_drop]
    have harith : minHeaderSize + data.getD 4 0 + gcmNonceSize + encryptedDEKSize + gcmNonceSize
        = 77 + data.getD 4 0 := by
      simp [minHeaderSize, gcmNonceSize, encryptedDEKSize, aesKeySize, gcmTagSize]
      omega
    rw [harith]

theorem C7_readHeader_validation_witness :
    ¬ (wData0.length < 5 ∨ wData0.take 2 ≠ magicBytes ∨ wData0.getD 2 0 ≠ 1 ∨
        wData0.getD 3 0 ≠ 1 ∨ wData0.length < 5 + (wData0.getD 4 0 + 72)) ∧
    ∃ h, readHeader wData0 = .ok (h, wData0.drop (77 + wData0.getD 4 0)) :=
  ⟨by decide, (C7_readHeader_validation wData0).2 (by decide)⟩

/-- C8: writeHeader limit and field order.  Over the never-failing in-memory
buffer sink, writeHeader fails, with invalidFormat, exactly when the key-ID
byte length exceeds 255; on success the output is the fields in the fixed
order magic, version, algorithm, key-ID length, key ID, DEK nonce, wrapped
DEK, data nonce.  Over an arbitrary sink, a failure of the sink is returned
unchanged: a failing first write propagates as-is, and any sink error that
writeHeaderW returns was produced by some write call. -/
theorem C8_writeHeader_limit_and_order (h : header) :
    (writeHeader h = .error WriteErr.invalidFormat ↔ 255 < h.keyID.length) ∧
    (h.keyID.length ≤ 255 → writeHeader h = .ok (headerBytes h)) ∧
    (∀ (σ ε : Type) (write : σ → List Nat → Except ε σ) (s : σ) (e : ε),
        write s magicBytes = .error e →
        writeHeaderW write s h = .error (.sinkErr e)) ∧
    (∀ (σ ε : Type) (write : σ → List Nat → Except ε σ) (s : σ) (e : ε),
        writeHeaderW write s h = .error (.sinkErr e) →
        ∃ s2 bs, write s2 bs = .error e) := by
  refine ⟨⟨fun herr => ?_, fun hbig => ?_⟩, writeHeader_ok h, fun σ ε write s e hw => ?_,
    fun σ ε write s e hw => ?_⟩
  · by_contra hle
    rw [writeHeader_ok h (by omega)] at herr
    exact absurd herr (by simp)
  · rw [writeHeader, writeHeaderW]
    simp only [bufWrite, if_pos hbig]
  · simp only [writeHeaderW, hw]
  · rw [writeHeaderW] at hw
    cases h1 : write s magicBytes with
    | error e1 =>
      simp only [h1, Except.error.injEq, WriteErr.sinkErr.injEq] at hw
      exact ⟨s, magicBytes, by rw [h1, hw]⟩
    | ok s1 =>
      simp only [h1] at hw
      by_cases hbig : 255 < h.keyID.length
      · rw [if_pos hbig] at hw
        exact absurd hw (by simp)
      · rw [if_neg hbig] at hw
        cases h2 : write s1 [h.version, h.algorithm, h.keyID.length] with
        | error e1 =>
          simp only [h2, Except.error.injEq, WriteErr.sinkErr.injEq] at hw
          exact ⟨s1, _, by rw [h2, hw]⟩
        | ok s2 =>
          simp only [h2] at hw
          cases h3 : write s2 h.keyID with
          | error e1 =>
            simp only [h3, Except.error.injEq, WriteErr.sinkErr.injEq] at hw
            exact ⟨s2, _, by rw [h3, hw]⟩
          | ok s3 =>
            simp only [h3] at hw
            cases h4 : write s3 h.dekNonce with
            | error e1 =>
              simp only [h4, Except.error.injEq, WriteErr.sinkErr.injEq] at hw
              exact ⟨s3, _, by rw [h4, hw]⟩
            | ok s4 =>
              simp only [h4] at hw
              cases h5 : write s4 h.encryptedDEK with
              | error e1 =>
                simp only [h5, Except.error.injEq, WriteErr.sinkErr.injEq] at hw
                exact ⟨s4, _, by rw [h5, hw]⟩
              | ok s5 =>
                simp only [h5] at hw
                cases h6 : write s5 h.dataNonce with
                | error e1 =>
                  simp only [h6, Except.error.injEq, WriteErr.sinkErr.injEq] at hw
                  exact ⟨s5, _, by rw [h6, hw]⟩
                | ok s6 =>
                  simp only [h6] at hw
                  exact absurd hw (by simp)

theorem C8_writeHeader_limit_and_order_witness :
    writeHeader wHeader255 = .ok (headerBytes wHeader255) ∧
    writeHeader wHeader256 = .error WriteErr.invalidFormat ∧
    writeHeaderW wFailWrite () wHeader255 = .error (.sinkErr 7) :=
  ⟨(C8_writeHeader_limit_and_order wHeader255).2.1 (by decide),
   (C8_writeHeader_limit_and_order wHeader256).1.mpr (by decide),
   (C8_writeHeader_limit_and_order wHeader255).2.2.1 Unit Nat wFailWrite () 7 rfl⟩

/-- C9: readHeader defensive copies.  At the store level, a successful
readHeaderM returns a remainder that is a slice of the input buffer, and
three freshly allocated buffers holding copies of the parsed DEK nonce,
wrapped DEK, and data nonce; overwriting the input buffer, which is exactly
what mutation through the remainder slice does, leaves all three unchanged. -/
theorem C9_readHeader_defensive_copies (m : Mem) (r : Nat) (hrefs : headerRefs)
    (rem : Nat × Nat) (m1 : Mem) (hr : r < m.size)
    (hres : readHeaderM m r = .ok (hrefs, rem, m1)) :
    rem.1 = r ∧
    (∃ h rest, readHeader (m.read r) = .ok (h, rest) ∧
      m1.read hrefs.dekNonceRef = h.dekNonce ∧
      m1.read hrefs.encryptedDEKRef = h.encryptedDEK ∧
      m1.read hrefs.dataNonceRef = h.dataNonce) ∧
    (∀ bs, (m1.write r bs).read hrefs.dekNonceRef = m1.read hrefs.dekNonceRef ∧
           (m1.write r bs).read hrefs.encryptedDEKRef = m1.read hrefs.encryptedDEKRef ∧
           (m1.write r bs).read hrefs.dataNonceRef = m1.read hrefs.dataNonceRef) := by
  rw [readHeaderM] at hres
  cases hh : readHeader (m.read r) with
  | error e =>
    rw [hh] at hres
    exact absurd hres (by simp)
  | ok pr =>
    obtain ⟨h, rest⟩ := pr
    rw [hh] at hres
    simp only [Except.ok.injEq, Prod.mk.injEq] at hres
    obtain ⟨hh1, hh2, hh3⟩ := hres
    subst hh1 hh2 hh3
    have hs1 : (m.alloc h.dekNonce).1.size = m.size + 1 := by simp [Mem.alloc]
    have hs2 : ((m.alloc h.dekNonce).1.alloc h.encryptedDEK).1.size = m.size + 2 := by
      simp [Mem.alloc]
    have hrd1 : (((m.alloc h.dekNonce).1.alloc h.encryptedDEK).1.alloc h.dataNonce).1.read
        m.size = h.dekNonce := by
      rw [Mem.read_alloc_ne _ _ _ (by rw [hs2]; omega)]
      rw [Mem.read_alloc_ne _ _ _ (by rw [hs1]; omega)]
      exact Mem.read_alloc_same m h.dekNonce
    have hrd2 : (((m.alloc h.dekNonce).1.alloc h.encryptedDEK).1.alloc h.dataNonce).1.read
        (m.size + 1) = h.encryptedDEK := by
      rw [Mem.read_alloc_ne _ _ _ (by rw [hs2]; omega)]
      have := Mem.read_alloc_same (m.alloc h.dekNonce).1 h.encryptedDEK
      rwa [Mem.alloc_snd, hs1] at this
    have hrd3 : (((m.alloc h.dekNonce).1.alloc h.encryptedDEK).1.alloc h.dataNonce).1.read
        (m.size + 2) = h.dataNonce := by
      have := Mem.read_alloc_same ((m.alloc h.dekNonce).1.alloc h.encryptedDEK).1 h.dataNonce
      rwa [Mem.alloc_snd, hs2] at this
    refine ⟨rfl, ⟨h, rest, rfl, hrd1, hrd2, hrd3⟩, fun bs => ?_⟩
    refine ⟨?_, ?_, ?_⟩ <;>
      exact Mem.read_write_ne _ _ _ _ (by simp [Mem.alloc]; omega)

theorem C9_readHeader_defensive_copies_witness :
    (0, headerSize []).1 = 0 ∧
    (∃ h rest, readHeader (wMem9.read 0) = .ok (h, rest) ∧
      wMem9f.read wRefs9.dekNonceRef = h.dekNonce ∧
      wMem9f.read wRefs9.encryptedDEKRef = h.encryptedDEK ∧
      wMem9f.read wRefs9.dataNonceRef = h.dataNonce) ∧
    (∀ bs, (wMem9f.write 0 bs).read wRefs9.dekNonceRef = wMem9f.read wRefs9.dekNonceRef ∧
      (wMem9f.write 0 bs).read wRefs9.encryptedDEKRef = wMem9f.read wRefs9.encryptedDEKRef ∧
      (wMem9f.write 0 bs).read wRefs9.dataNonceRef = wMem9f.read wRefs9.dataNonceRef) :=
  C9_readHeader_defensive_copies wMem9 0 wRefs9 (0, headerSize []) wMem9f
    (by decide) (by rfl)

theorem Mem.alloc_fst_size (m : Mem) (bs : List Nat) : (m.alloc bs).1.size = m.size + 1 := rfl

theorem foldl_applyOpt_error (opts : List (Nat × List Nat)) (e : Err) :
    opts.foldl applyOpt (.error e) = .error e := by
  induction opts with
  | nil => rfl
  | cons o rest ih => simpa [applyOpt] using ih

theorem mapSet_mem : ∀ (l : List (List Nat × KeyRef)) (id : List Nat) (k : KeyRef)
    (kv : List Nat × KeyRef), kv ∈ mapSet l id k → kv ∈ l ∨ kv = (id, k)
  | [], id, k, kv, h => Or.inr (by simpa [mapSet] using h)
  | (a, k0) :: rest, id, k, kv, h => by
      rw [mapSet] at h
      by_cases hai : a = id
      · rw [if_pos hai] at h
        rcases List.mem_cons.mp h with h1 | h1
        · exact Or.inr h1
        · exact Or.inl (List.mem_cons_of_mem _ h1)
      · rw [if_neg hai] at h
        rcases List.mem_cons.mp h with h1 | h1
        · exact Or.inl (by simp [h1])
        · rcases mapSet_mem rest id k kv h1 with h2 | h2
          · exact Or.inl (List.mem_cons_of_mem _ h2)
          · exact Or.inr h2

theorem lookupKey_mem : ∀ (l : List (List Nat × KeyRef)) (id : List Nat) (k : KeyRef),
    lookupKey l id = some k → (id, k) ∈ l
  | [], id, k, h => by simp [lookupKey] at h
  | (a, k0) :: rest, id, k, h => by
      rw [lookupKey] at h
      by_cases hai : a = id
      · rw [if_pos hai] at h
        simp only [Option.some.injEq] at h
        subst hai
        simp [h]
      · rw [if_neg hai] at h
        exact List.mem_cons_of_mem _ (lookupKey_mem rest id k h)

theorem withOldKeyStep_ok (m : Mem) (p : StaticKeyProvider) (src : Nat) (id : List Nat)
    (p1 : StaticKeyProvider) (m1 : Mem)
    (hok : withOldKeyStep m p src id = .ok (p1, m1)) :
    p1.current = p.current ∧ p1.destroyed = p.destroyed ∧ m1.size = m.size + 1 ∧
    (∀ x, x ≠ m.size → m1.read x = m.read x) ∧
    (∀ kv ∈ p1.keys, kv ∈ p.keys ∨ kv.2.ref = m.size) := by
  by_cases h1 : (m.read src).length ≠ aesKeySize
  · rw [withOldKeyStep, if_pos h1] at hok
    exact absurd hok (by simp)
  · by_cases h2 : id = []
    · rw [withOldKeyStep, if_neg h1, if_pos h2] at hok
      exact absurd hok (by simp)
    · rw [withOldKeyStep, if_neg h1, if_neg h2] at hok
      simp only [Except.ok.injEq, Prod.mk.injEq] at hok
      obtain ⟨hp, hm⟩ := hok
      subst hp hm
      refine ⟨rfl, rfl, rfl, fun x hx => Mem.read_alloc_ne m _ x hx, fun kv hkv => ?_⟩
      rcases mapSet_mem p.keys id ⟨id, (m.alloc (m.read src)).2⟩ kv hkv with h3 | h3
      · exact Or.inl h3
      · exact Or.inr (by rw [h3]; rfl)

theorem foldl_applyOpt_ok : ∀ (opts : List (Nat × List Nat)) (p0 : StaticKeyProvider)
    (m0 : Mem) (p : StaticKeyProvider) (mC : Mem),
    opts.foldl applyOpt (.ok (p0, m0)) = .ok (p, mC) →
    p.current = p0.current ∧ p.destroyed = p0.destroyed ∧ m0.size ≤ mC.size ∧
    (∀ x, x < m0.size → mC.read x = m0.read x) ∧
    (∀ kv ∈ p.keys, kv ∈ p0.keys ∨ (m0.size ≤ kv.2.ref ∧ kv.2.ref < mC.size))
  | [], p0, m0, p, mC, h => by
      simp only [List.foldl_nil, Except.ok.injEq, Prod.mk.injEq] at h
      obtain ⟨hp, hm⟩ := h
      subst hp hm
      exact ⟨rfl, rfl, Nat.le_refl _, fun x _ => rfl, fun kv hkv => Or.inl hkv⟩
  | o :: rest, p0, m0, p, mC, h => by
      rw [List.foldl_cons] at h
      cases ha : applyOpt (.ok (p0, m0)) o with
      | error e =>
        rw [ha, foldl_applyOpt_error] at h
        exact absurd h (by simp)
      | ok pm =>
        obtain ⟨p1, m1⟩ := pm
        rw [ha] at h
        have hstep : withOldKeyStep m0 p0 o.1 o.2 = .ok (p1, m1) := ha
        obtain ⟨hc1, hd1, hs1, hr1, hk1⟩ := withOldKeyStep_ok m0 p0 o.1 o.2 p1 m1 hstep
        obtain ⟨hc2, hd2, hs2, hr2, hk2⟩ := foldl_applyOpt_ok rest p1 m1 p mC h
        refine ⟨hc2.trans hc1, hd2.trans hd1, by omega, fun x hx => ?_, fun kv hkv => ?_⟩
        · rw [hr2 x (by omega), hr1 x (by omega)]
        · rcases hk2 kv hkv with hin | ⟨hge, hlt⟩
          · rcases hk1 kv hin with hin0 | hr
            · exact Or.inl hin0
            · exact Or.inr ⟨by omega, by omega⟩
          · exact Or.inr ⟨by omega, hlt⟩

/-- C2: Destroy contract.  After Destroy (modelled from the spec; the code of
static_provider.go is absent from src while its tests exercise it), every
subsequent CurrentKey and KeyByID call returns providerDestroyed, the byte
buffers of the current key and of every key stored in the mapping are
overwritten with zero bytes of their original length, and a second Destroy
is a no-op. -/
theorem C2_destroy_contract (p : StaticKeyProvider) (m : Mem) (hnd : p.destroyed = false) :
    ((p.Destroy m).1.CurrentKey = .error Err.providerDestroyed) ∧
    (∀ id, (p.Destroy m).1.KeyByID id = .error Err.providerDestroyed) ∧
    ((p.Destroy m).2.read p.current.ref = zeros ((m.read p.current.ref).length)) ∧
    (∀ kv ∈ p.keys, (p.Destroy m).2.read kv.2.ref = zeros ((m.read kv.2.ref).length)) ∧
    ((p.Destroy m).1.Destroy (p.Destroy m).2 = p.Destroy m) := by
  have hD : p.Destroy m = (⟨p.current, [], true⟩,
      zeroRefs m (p.current.ref :: p.keys.map (fun kv => kv.2.ref))) := by
    rw [StaticKeyProvider.Destroy, if_neg (by simp [hnd])]
  rw [hD]
  refine ⟨by simp [StaticKeyProvider.CurrentKey],
    fun id => by simp [StaticKeyProvider.KeyByID], ?_, ?_, ?_⟩
  · rw [zeroRefs_read]
    simp
  · intro kv hkv
    rw [zeroRefs_read]
    have hmem : kv.2.ref ∈ p.current.ref :: p.keys.map (fun kv => kv.2.ref) :=
      List.mem_cons_of_mem _ (List.mem_map_of_mem _ hkv)
    simp [hmem]
  · simp [StaticKeyProvider.Destroy]

theorem C2_destroy_contract_witness :
    ((c2p.Destroy c2m).1.CurrentKey = .error Err.providerDestroyed) ∧
    (∀ id, (c2p.Destroy c2m).1.KeyByID id = .error Err.providerDestroyed) ∧
    ((c2p.Destroy c2m).2.read c2p.current.ref = zeros ((c2m.read c2p.current.ref).length)) ∧
    (∀ kv ∈ c2p.keys, (c2p.Destroy c2m).2.read kv.2.ref = zeros ((c2m.read kv.2.ref).length)) ∧
    ((c2p.Destroy c2m).1.Destroy (c2p.Destroy c2m).2 = c2p.Destroy c2m) :=
  C2_destroy_contract c2p c2m rfl

/-- C3 counterexample: the claim of copy-on-return is false on the code.  On
a provider freshly built over nonzero key bytes, CurrentKey returns the key
whose buffer is reference 1; overwriting that buffer with zeros makes a
subsequent CurrentKey return a key whose bytes now read as zeros rather than
the original bytes, so mutating the returned buffer does corrupt later
reads.  The methods of src/encrypt.go return the stored Key without copying
its bytes, and the destroy-zeroisation tests rely on exactly this
aliasing. -/
theorem C3_copy_on_return_counterexample :
    (NewStaticKeyProvider c3m0 0 [107] []).toOption.map
      (fun pm => (pm.1.CurrentKey, (pm.2.write 1 (zeros 32)).read 1, pm.2.read 1))
      = some (.ok ⟨[107], 1⟩, zeros 32, c3src) ∧
    zeros 32 ≠ c3src := by
  exact ⟨rfl, by decide⟩

/-- C3 amended: keys are copied on the way in, not on the way out.  For any
provider built by NewStaticKeyProvider from a valid source buffer:
NewStaticKeyProvider and WithOldKey allocate fresh copies of the caller
bytes (every stored key buffer lies outside the pre-existing store, so
overwriting any caller buffer, the current key source or an old key source,
leaves all stored key bytes unchanged), while CurrentKey and KeyByID return
the stored keys themselves, sharing their buffer references (KeyByID
returns exactly the mapping entry), so writes through a returned key are
visible to all later reads of the stored key. -/
theorem C3_alias_on_return (m : Mem) (src : Nat) (id : List Nat)
    (opts : List (Nat × List Nat)) (p : StaticKeyProvider) (mC : Mem)
    (hok : NewStaticKeyProvider m src id opts = .ok (p, mC)) (hsrc : src < m.size) :
    p.CurrentKey = .ok p.current ∧
    p.current.ref = m.size ∧
    mC.read p.current.ref = m.read src ∧
    (∀ bs, (mC.write src bs).read p.current.ref = mC.read p.current.ref) ∧
    (∀ bs, (mC.write p.current.ref bs).read p.current.ref = bs) ∧
    (∀ id2 k, p.KeyByID id2 = .ok k →
      lookupKey p.keys id2 = some k ∧
      m.size ≤ k.ref ∧
      (∀ s bs, s < m.size → (mC.write s bs).read k.ref = mC.read k.ref) ∧
      (∀ bs, (mC.write k.ref bs).read k.ref = bs)) := by
  by_cases h1 : (m.read src).length ≠ aesKeySize
  · rw [NewStaticKeyProvider, if_pos h1] at hok
    exact absurd hok (by simp)
  by_cases h2 : id = []
  · rw [NewStaticKeyProvider, if_neg h1, if_pos h2] at hok
    exact absurd hok (by simp)
  rw [NewStaticKeyProvider, if_neg h1, if_neg h2] at hok
  simp only [Mem.alloc_snd] at hok
  obtain ⟨hcur0, hdes0, hsz, hrd, hkeys0⟩ := foldl_applyOpt_ok opts _ _ p mC hok
  have hcur : p.current = ⟨id, m.size⟩ := hcur0
  have hdes : p.destroyed = false := hdes0
  have hkeys : ∀ kv ∈ p.keys, kv ∈ [(id, (⟨id, m.size⟩ : KeyRef))] ∨
      ((m.alloc (m.read src)).1.size ≤ kv.2.ref ∧ kv.2.ref < mC.size) := hkeys0
  have hszAlloc : (m.alloc (m.read src)).1.size = m.size + 1 := Mem.alloc_fst_size m _
  have hread : mC.read m.size = m.read src := by
    rw [hrd m.size (by omega)]
    have := Mem.read_alloc_same m (m.read src)
    rwa [Mem.alloc_snd] at this
  refine ⟨?_, ?_, ?_, ?_, ?_, ?_⟩
  · rw [StaticKeyProvider.CurrentKey, hdes]
    simp
  · rw [hcur]
  · rw [hcur]
    exact hread
  · intro bs
    rw [hcur]
    exact Mem.read_write_ne _ _ _ _ (by show m.size ≠ src; omega)
  · intro bs
    rw [hcur]
    exact Mem.read_write_same _ _ _
  · intro id2 k hk
    have hlk : lookupKey p.keys id2 = some k := by
      rw [StaticKeyProvider.KeyByID, hdes] at hk
      cases hl : lookupKey p.keys id2 with
      | none => simp [hl] at hk
      | some k2 =>
        simp only [hl, Bool.false_eq_true, if_false, Except.ok.injEq] at hk
        rw [hk]
    have hmem : (id2, k) ∈ p.keys := lookupKey_mem _ _ _ hlk
    have hge : m.size ≤ k.ref := by
      rcases hkeys _ hmem with hin | ⟨hge1, _⟩
      · simp only [List.mem_singleton, Prod.mk.injEq] at hin
        rw [hin.2]
      · have hge2 : (m.alloc (m.read src)).1.size ≤ k.ref := hge1
        omega
    exact ⟨hlk, hge, fun s bs hs => Mem.read_write_ne _ _ _ _ (by omega),
      fun bs => Mem.read_write_same _ _ _⟩

theorem C3_alias_on_return_witness :
    c3p2.CurrentKey = .ok c3p2.current ∧
    c3p2.current.ref = c3m2.size ∧
    c3mC2.read c3p2.current.ref = c3m2.read 0 ∧
    (∀ bs, (c3mC2.write 0 bs).read c3p2.current.ref = c3mC2.read c3p2.current.ref) ∧
    (∀ bs, (c3mC2.write c3p2.current.ref bs).read c3p2.current.ref = bs) ∧
    (∀ id2 k, c3p2.KeyByID id2 = .ok k →
      lookupKey c3p2.keys id2 = some k ∧
      c3m2.size ≤ k.ref ∧
      (∀ s bs, s < c3m2.size → (c3mC2.write s bs).read k.ref = c3mC2.read k.ref) ∧
      (∀ bs, (c3mC2.write k.ref bs).read k.ref = bs)) :=
  C3_alias_on_return c3m2 0 [107] [(1, [108])] c3p2 c3mC2 rfl (by decide)

/-- C10: current-key shadowing.  When WithOldKey is given the same ID as the
current key (both keys valid), construction succeeds, the old key silently
overwrites the current key entry in the mapping, and afterwards KeyByID of
that ID returns the old key bytes while CurrentKey returns the current key
bytes: the two disagree whenever the byte sources differ. -/
theorem C10_current_key_shadowing (m : Mem) (src1 src2 : Nat) (id : List Nat)
    (h1 : (m.read src1).length = aesKeySize) (h2 : (m.read src2).length = aesKeySize)
    (hid : id ≠ []) (hsrc2 : src2 < m.size) :
    ∃ mC, NewStaticKeyProvider m src1 id [(src2, id)]
        = .ok (⟨⟨id, m.size⟩, [(id, ⟨id, m.size + 1⟩)], false⟩, mC) ∧
      StaticKeyProvider.CurrentKey ⟨⟨id, m.size⟩, [(id, ⟨id, m.size + 1⟩)], false⟩
        = .ok ⟨id, m.size⟩ ∧
      StaticKeyProvider.KeyByID ⟨⟨id, m.size⟩, [(id, ⟨id, m.size + 1⟩)], false⟩ id
        = .ok ⟨id, m.size + 1⟩ ∧
      mC.read m.size = m.read src1 ∧ mC.read (m.size + 1) = m.read src2 := by
  have hr2 : (m.alloc (m.read src1)).1.read src2 = m.read src2 :=
    Mem.read_alloc_ne m _ src2 (by omega)
  refine ⟨((m.alloc (m.read src1)).1.alloc ((m.alloc (m.read src1)).1.read src2)).1,
    ?_, ?_, ?_, ?_, ?_⟩
  · rw [NewStaticKeyProvider, if_neg (by simp [h1]), if_neg hid]
    simp only [List.foldl_cons, List.foldl_nil, applyOpt]
    rw [withOldKeyStep, if_neg (by simp [hr2, h2]), if_neg hid]
    simp [Mem.alloc_snd, Mem.alloc_fst_size, mapSet]
  · simp [StaticKeyProvider.CurrentKey]
  · simp [StaticKeyProvider.KeyByID, lookupKey]
  · rw [Mem.read_alloc_ne _ _ _ (by rw [Mem.alloc_fst_size]; omega)]
    have := Mem.read_alloc_same m (m.read src1)
    rwa [Mem.alloc_snd] at this
  · have := Mem.read_alloc_same (m.alloc (m.read src1)).1 ((m.alloc (m.read src1)).1.read src2)
    rw [Mem.alloc_snd, Mem.alloc_fst_size] at this
    rw [this, hr2]

theorem C10_current_key_shadowing_witness :
    ∃ mC, NewStaticKeyProvider c10m 0 [107] [(1, [107])]
        = .ok (⟨⟨[107], c10m.size⟩, [([107], ⟨[107], c10m.size + 1⟩)], false⟩, mC) ∧
      StaticKeyProvider.CurrentKey ⟨⟨[107], c10m.size⟩, [([107], ⟨[107], c10m.size + 1⟩)], false⟩
        = .ok ⟨[107], c10m.size⟩ ∧
      StaticKeyProvider.KeyByID ⟨⟨[107], c10m.size⟩, [([107], ⟨[107], c10m.size + 1⟩)], false⟩ [107]
        = .ok ⟨[107], c10m.size + 1⟩ ∧
      mC.read c10m.size = c10m.read 0 ∧ mC.read (c10m.size + 1) = c10m.read 1 :=
  C10_current_key_shadowing c10m 0 1 [107] (by decide) (by decide) (by decide) (by decide)

end ConfigCrypto
